import Mathlib

/-!
Shallow embedding of the HTTP/1.1 request assembler and response builder of
the hamza-http-server library, together with proofs checking the library's
specification claims against the code.

Strings are modelled as lists of characters (`Str`); every C++ standard
library routine the code relies on (`std::getline`, `operator>>` token
extraction, `std::string::find`, `find_first_not_of`, `std::stoull`,
`std::multimap` ordered insertion, `std::toupper`/`tolower`, hex extraction
into `unsigned int`) is given an explicit executable model.  Loops whose
measure is the remaining stream length take an explicit fuel argument so
that all definitions reduce inside the kernel; every entry point passes
fuel `length + 1`, which is sufficient because each iteration consumes at
least one character.
-/

namespace HttpModel

/-- Byte strings are lists of characters (each character stands for one byte). -/
abbrev Str := List Char

/-- Model of C `toupper` (C locale): map a-z to A-Z, leave the rest. -/
def upperChar (c : Char) : Char :=
  if 'a' ≤ c ∧ c ≤ 'z' then Char.ofNat (c.toNat - 32) else c

/-- Model of C `tolower` (C locale): map A-Z to a-z, leave the rest. -/
def lowerChar (c : Char) : Char :=
  if 'A' ≤ c ∧ c ≤ 'Z' then Char.ofNat (c.toNat + 32) else c

/-- `hh_http::to_upper_case` / `hamza_http::to_upper_case`: uppercase every character. -/
def to_upper_case (s : Str) : Str := s.map upperChar

/-- Lowercasing used by `contains_chunked` (`std::transform` with `::tolower`). -/
def to_lower_case (s : Str) : Str := s.map lowerChar

/-- Whitespace for `std::istream` extraction and `std::isspace` (C locale):
space, tab, newline, vertical tab, form feed, carriage return. -/
def isStreamWs (c : Char) : Bool :=
  c = ' ' ∨ c = '\t' ∨ c = '\n' ∨ c = Char.ofNat 11 ∨ c = Char.ofNat 12 ∨ c = '\r'

/-- The characters trimmed from header values (`find_first_not_of(" \t")`). -/
def isSpTab (c : Char) : Bool := c = ' ' ∨ c = '\t'

/-- Model of `std::getline(stream, line)` on a string stream holding `s`:
fails at end of stream, otherwise yields the characters before the first
newline (the newline itself is consumed and discarded). -/
def getline (s : Str) : Option (Str × Str) :=
  if s = [] then none
  else some (s.takeWhile (fun c => ¬ c = '\n'), (s.dropWhile (fun c => ¬ c = '\n')).drop 1)

/-- The `if (!line.empty() && line.back() == '\r') line.pop_back();` idiom. -/
def chopCR (l : Str) : Str :=
  match l.getLast? with
  | some c => if c = '\r' then l.dropLast else l
  | none => l

/-- Helper for `wordsWs`: accumulates the current token (reversed) while
scanning the input. -/
def wordsAux : Str → Str → List Str
  | [], cur => if cur = [] then [] else [cur.reverse]
  | c :: cs, cur =>
    if isStreamWs c then
      if cur = [] then wordsAux cs [] else cur.reverse :: wordsAux cs []
    else wordsAux cs (c :: cur)

/-- Model of repeated `operator>>` extraction from an `istringstream`:
the whitespace-separated tokens of the string, in order. -/
def wordsWs (s : Str) : List Str := wordsAux s []

/-- Model of `std::string::find(':')`: index of the first colon, if any. -/
def findColon : Str → Option Nat
  | [] => none
  | c :: t => if c = ':' then some 0 else (findColon t).map (· + 1)

/-- Model of `std::string::find(';')`: index of the first semicolon, if any. -/
def findSemicolon : Str → Option Nat
  | [] => none
  | c :: t => if c = ';' then some 0 else (findSemicolon t).map (· + 1)

/-- Model of `find_first_not_of(" \t")`. -/
def firstNotST : Str → Option Nat
  | [] => none
  | c :: t => if isSpTab c then (firstNotST t).map (· + 1) else some 0

/-- Model of `find_last_not_of(" \t")`. -/
def lastNotST (v : Str) : Option Nat :=
  (firstNotST v.reverse).map (fun i => v.length - 1 - i)

/-- Header-value trimming exactly as in `parse_headers`: first strip up to
`find_first_not_of(" \t")` (only when found), then keep up to
`find_last_not_of(" \t")` (only when found). -/
def trimValue (v : Str) : Str :=
  let v1 := match firstNotST v with
            | some i => v.drop i
            | none => v
  match lastNotST v1 with
  | some j => v1.take (j + 1)
  | none => v1

/-- Lexicographic byte comparison, as `std::less<std::string>`. -/
def strLt : Str → Str → Bool
  | [], [] => false
  | [], _ :: _ => true
  | _ :: _, [] => false
  | a :: as, b :: bs =>
    if a.toNat < b.toNat then true
    else if b.toNat < a.toNat then false
    else strLt as bs

/-- `std::multimap` emplace: keep the list sorted by key, inserting a new
entry after all entries with a key that is not greater (upper-bound
position, so equal keys keep insertion order). -/
def mmInsert (m : List (Str × Str)) (k v : Str) : List (Str × Str) :=
  match m with
  | [] => [(k, v)]
  | p :: rest => if strLt k p.1 then (k, v) :: p :: rest else p :: mmInsert rest k v

/-- `std::multimap::count`. -/
def mmCount (m : List (Str × Str)) (k : Str) : Nat :=
  (m.filter (fun p => p.1 = k)).length

/-- `std::multimap::find`, returning the mapped value of the first entry
with the given key. -/
def mmFind? (m : List (Str × Str)) (k : Str) : Option Str :=
  (m.find? (fun p => p.1 = k)).map Prod.snd

/-- `std::multimap::equal_range`, as the sublist of entries with the key. -/
def mmEqualRange (m : List (Str × Str)) (k : Str) : List (Str × Str) :=
  m.filter (fun p => p.1 = k)

/-- Does `pat` occur at the head of `hay`? (helper for substring search). -/
def leadsWith : Str → Str → Bool
  | _, [] => true
  | [], _ :: _ => false
  | h :: t, p :: ps => h = p && leadsWith t ps

/-- Model of `std::string::find(pat) != npos`: substring containment. -/
def hasSub (hay pat : Str) : Bool :=
  match hay with
  | [] => leadsWith [] pat
  | _ :: t => leadsWith hay pat || hasSub t pat

/-- `isxdigit` (C locale, ASCII). -/
def isXDigit (c : Char) : Bool :=
  ('0' ≤ c ∧ c ≤ '9') ∨ ('a' ≤ c ∧ c ≤ 'f') ∨ ('A' ≤ c ∧ c ≤ 'F')

/-- `isdigit` (C locale, ASCII). -/
def isDecDigit (c : Char) : Bool := '0' ≤ c ∧ c ≤ '9'

/-- Numeric value of a hexadecimal digit character. -/
def hexDigitVal (c : Char) : Nat :=
  if '0' ≤ c ∧ c ≤ '9' then c.toNat - 48
  else if 'a' ≤ c ∧ c ≤ 'f' then c.toNat - 87
  else if 'A' ≤ c ∧ c ≤ 'F' then c.toNat - 55
  else 0

/-- Model of `hex_stream >> std::hex >> chunk_size_int` on an all-xdigit
token extracted into an `unsigned int`: fails on an empty token and on
overflow past `UINT_MAX` (both set `failbit` in the source). -/
def hexParse (tok : Str) : Option Nat :=
  if tok = [] then none
  else
    let n := tok.foldl (fun acc c => 16 * acc + hexDigitVal c) 0
    if n > 4294967295 then none else some n

/-- Model of `std::stoull` on a base-10 string: skip `isspace` characters,
accept one optional sign, then require at least one decimal digit
(`none` models the thrown `std::invalid_argument` / `std::out_of_range`).
A minus sign wraps modulo 2^64 as `strtoull` does. -/
def stoull (s : Str) : Option Nat :=
  let s1 := s.dropWhile isStreamWs
  let (neg, s2) : Bool × Str :=
    match s1 with
    | '-' :: t => (true, t)
    | '+' :: t => (false, t)
    | t => (false, t)
  let digits := s2.takeWhile isDecDigit
  if digits = [] then none
  else
    let v := digits.foldl (fun acc c => 10 * acc + (c.toNat - 48)) 0
    if v > 18446744073709551615 then none
    else some (if neg then (18446744073709551616 - v % 18446744073709551616) % 18446744073709551616 else v)

/-- Decidable equality for `Except`, so concrete runs of the assembler can be
checked by `decide`. -/
instance {ε α : Type _} [DecidableEq ε] [DecidableEq α] : DecidableEq (Except ε α)
  | Except.ok x, Except.ok y =>
      decidable_of_iff (x = y) ⟨fun h => by rw [h], fun h => by injection h⟩
  | Except.error x, Except.error y =>
      decidable_of_iff (x = y) ⟨fun h => by rw [h], fun h => by injection h⟩
  | Except.ok _, Except.error _ => isFalse (fun h => by injection h)
  | Except.error _, Except.ok _ => isFalse (fun h => by injection h)

/-! ## Data model of the assembler (`http_message_handler.hpp`) -/

/-- Mutable size limits from `hh_http::config` (`http_consts.cpp`); they are
`extern` globals that a program may set, so the embedding is parametric in
them. -/
structure Config where
  MAX_HEADER_SIZE : Nat
  MAX_BODY_SIZE : Nat
deriving DecidableEq, Repr

/-- The default values assigned in `http_consts.cpp`: 16 KiB and 5 MiB. -/
def defaultConfig : Config := ⟨1024 * 16, 1024 * 1024 * 5⟩

/-- `hamza_http::http_handled_data` (`http_handled_data.hpp`): the result the
assembler hands back; on a fatal protocol error the `method` field carries the
error-code string. -/
structure http_handled_data where
  completed : Bool
  method : Str
  uri : Str
  version : Str
  headers : List (Str × Str)
  body : Str
deriving DecidableEq, Repr

/-- `hamza_http::handling_type`. -/
inductive handling_type where
  | CONTENT_LENGTH
  | CHUNKED
deriving DecidableEq, Repr

/-- `hamza_http::http_data_under_handling` (`http_data_under_handling.hpp`),
without the fields foreign to a shallow embedding (`socket_key`, `FD`,
`last_activity`), which never influence parsing. -/
structure http_data_under_handling where
  type : handling_type
  content_length : Nat
  method : Str
  uri : Str
  version : Str
  headers : List (Str × Str)
  body : Str
deriving DecidableEq, Repr

/-- Result of `parse_request_line`: validity flag, error message, the three
extracted tokens, and the remaining stream contents. -/
structure RequestLineResult where
  valid : Bool
  err : Str
  method : Str
  uri : Str
  version : Str
  rest : Str
deriving DecidableEq, Repr

def BAD_METHOD_OR_URI_OR_VERSION : Str := "BAD_METHOD_OR_URI_OR_VERSION".toList
def BAD_HEADERS_TOO_LARGE : Str := "BAD_HEADERS_TOO_LARGE".toList
def BAD_REPEATED : Str := "BAD_REPEATED_LENGTH_OR_TRANSFER_ENCODING_OR_BOTH".toList
def BAD_CONTENT_TOO_LARGE : Str := "BAD_CONTENT_TOO_LARGE".toList
def CONTENT_TOO_LARGE : Str := "CONTENT_TOO_LARGE".toList
def BAD_CHUNK_ENCODING : Str := "BAD_CHUNK_ENCODING".toList
def BAD_TRAILER_HEADERS : Str := "BAD_TRAILER_HEADERS".toList

def CONTENT_LENGTH_KEY : Str := to_upper_case "content-length".toList
def TRANSFER_ENCODING_KEY : Str := to_upper_case "Transfer-Encoding".toList

/-! ## Request-line and header parsing -/

/-- `http_message_handler::parse_request_line`: read one line, strip a
trailing CR, extract three whitespace-separated tokens; all three must be
non-empty. -/
def parse_request_line (s : Str) : RequestLineResult :=
  let parsed : Str × Str × Str × Str :=
    match getline s with
    | none => ([], [], [], s)
    | some (line, rest) =>
      if line = [] then ([], [], [], rest)
      else
        let toks := wordsWs (chopCR line)
        ((toks[0]?).getD [], (toks[1]?).getD [], (toks[2]?).getD [], rest)
  match parsed with
  | (m, u, v, rest) =>
    if m = [] ∨ u = [] ∨ v = [] then ⟨false, BAD_METHOD_OR_URI_OR_VERSION, m, u, v, rest⟩
    else ⟨true, [], m, u, v, rest⟩

/-- Loop body of `http_message_handler::parse_headers`.  `size` is the
running `headers_size`; a line without a colon is skipped; the loop stops at
an empty line or end of stream; exceeding `MAX_HEADER_SIZE` aborts with
`none`.  `fuel` dominates the stream length (each iteration consumes at
least one character), so the `fuel = 0` case is unreachable from the entry
point below. -/
def parse_headersAux (cfg : Config) : Nat → Str → List (Str × Str) → Nat →
    Option (List (Str × Str) × Str)
  | 0, _, _, _ => none
  | fuel + 1, s, acc, size =>
    match getline s with
    | none => some (acc, [])
    | some (line, rest) =>
      let line := chopCR line
      if line = [] then some (acc, rest)
      else
        match findColon line with
        | none => parse_headersAux cfg fuel rest acc size
        | some i =>
          let name := line.take i
          let value := trimValue (line.drop (i + 1))
          let size := size + name.length + value.length
          if size > cfg.MAX_HEADER_SIZE then none
          else parse_headersAux cfg fuel rest (mmInsert acc (to_upper_case name) value) size

/-- `http_message_handler::parse_headers`. -/
def parse_headers (cfg : Config) (s : Str) : Option (List (Str × Str) × Str) :=
  parse_headersAux cfg (s.length + 1) s [] 0

/-- `http_message_handler::contains_chunked`: some entry of the range has a
value whose lowercasing contains the substring `chunked`. -/
def contains_chunked (range : List (Str × Str)) : Bool :=
  range.any (fun p => hasSub (to_lower_case p.2) "chunked".toList)

/-! ## Body handling -/

/-- `http_message_handler::handle_content_length`: the whole remaining
stream is the candidate body; equality with the declared length completes,
excess length or exceeding `MAX_BODY_SIZE` is fatal, otherwise the partial
body is stored and more data awaited. -/
def handle_content_length (cfg : Config) (rest : Str) (method uri version : Str)
    (headers : List (Str × Str)) (content_length : Nat) :
    http_handled_data × Option http_data_under_handling :=
  let body := rest
  if body.length = content_length then
    (⟨true, method, uri, version, headers, body⟩, none)
  else if body.length > content_length ∨ body.length > cfg.MAX_BODY_SIZE then
    (⟨true, BAD_CONTENT_TOO_LARGE, uri, version, headers, []⟩, none)
  else
    (⟨false, method, uri, version, headers, body⟩,
     some ⟨handling_type.CONTENT_LENGTH, content_length, method, uri, version, headers, body⟩)

/-- Outcome of the chunk-reading loop shared by
`handle_chunked_encoding` and `continue_chunked_handling`. -/
inductive ChunkStep where
  | fatal (code : Str) (acc : Str)
  | finished (acc : Str) (rest : Str)
  | exhausted (acc : Str)
deriving DecidableEq, Repr

/-- The chunk-reading loop.  `tooLargeCode` is the error string used on the
size checks: the two copies of this loop in the source differ in exactly
that string (`BAD_CONTENT_TOO_LARGE` in `handle_chunked_encoding`,
`CONTENT_TOO_LARGE` in `continue_chunked_handling`) and in where the body
accumulates; everything else is verbatim identical.  Reads a chunk-size
line, strips a trailing CR, rejects an empty line, strips a `;` extension,
validates hex digits, extracts into `unsigned int`, stops at size zero,
rejects sizes over `MAX_BODY_SIZE`, reads size+2 bytes (breaking to
need-more when too few remain), demands CRLF after the data, appends the
data, and rejects an accumulated body over `MAX_BODY_SIZE`. -/
def chunk_loop (cfg : Config) (tooLargeCode : Str) : Nat → Str → Str → ChunkStep
  | 0, _, acc => ChunkStep.exhausted acc
  | fuel + 1, s, acc =>
    match getline s with
    | none => ChunkStep.exhausted acc
    | some (line, rest) =>
      let line := chopCR line
      if line = [] then ChunkStep.fatal BAD_CHUNK_ENCODING acc
      else
        let hexTok := match findSemicolon line with
                      | some i => line.take i
                      | none => line
        if ¬ hexTok.all isXDigit then ChunkStep.fatal BAD_CHUNK_ENCODING acc
        else
          match hexParse hexTok with
          | none => ChunkStep.fatal BAD_CHUNK_ENCODING acc
          | some n =>
            if n = 0 then ChunkStep.finished acc rest
            else if n > cfg.MAX_BODY_SIZE then ChunkStep.fatal tooLargeCode acc
            else if rest.length < n + 2 then ChunkStep.exhausted acc
            else if ¬ (rest[n]? = some '\r' ∧ rest[n + 1]? = some '\n') then
              ChunkStep.fatal BAD_CHUNK_ENCODING acc
            else
              let acc := acc ++ rest.take n
              if acc.length > cfg.MAX_BODY_SIZE then ChunkStep.fatal tooLargeCode acc
              else chunk_loop cfg tooLargeCode fuel (rest.drop (n + 2)) acc

/-- The trailer-header loop after the zero-sized chunk: lines with a colon
are parsed and discarded, a line without a colon is fatal
`BAD_TRAILER_HEADERS` (`false`), an empty line or end of stream ends the
loop (`true`). -/
def trailer_loop : Nat → Str → Bool
  | 0, _ => true
  | fuel + 1, s =>
    match getline s with
    | none => true
    | some (line, rest) =>
      let line := chopCR line
      if line = [] then true
      else
        match findColon line with
        | some _ => trailer_loop fuel rest
        | none => false

/-- `http_message_handler::handle_chunked_encoding`. -/
def handle_chunked_encoding (cfg : Config) (rest : Str) (method uri version : Str)
    (headers : List (Str × Str)) :
    http_handled_data × Option http_data_under_handling :=
  match chunk_loop cfg BAD_CONTENT_TOO_LARGE (rest.length + 1) rest [] with
  | ChunkStep.fatal code _ => (⟨true, code, uri, version, headers, []⟩, none)
  | ChunkStep.finished acc rest2 =>
    if trailer_loop (rest2.length + 1) rest2 then
      (⟨true, method, uri, version, headers, acc⟩, none)
    else (⟨true, BAD_TRAILER_HEADERS, uri, version, headers, []⟩, none)
  | ChunkStep.exhausted acc =>
    (⟨false, method, uri, version, headers, acc⟩,
     some ⟨handling_type.CHUNKED, 0, method, uri, version, headers, acc⟩)

/-- `http_message_handler::continue_chunked_handling`: same loop continued
on a later segment, accumulating onto the stored body; completion erases the
stored entry (`none`), every other outcome keeps it (with the body as
mutated by the appends). -/
def continue_chunked_handling (cfg : Config) (data : http_data_under_handling)
    (msg : Str) : http_handled_data × Option http_data_under_handling :=
  match chunk_loop cfg CONTENT_TOO_LARGE (msg.length + 1) msg data.body with
  | ChunkStep.fatal code acc =>
    (⟨true, code, data.uri, data.version, data.headers, []⟩, some { data with body := acc })
  | ChunkStep.finished acc rest2 =>
    if trailer_loop (rest2.length + 1) rest2 then
      (⟨true, data.method, data.uri, data.version, data.headers, acc⟩, none)
    else (⟨true, BAD_TRAILER_HEADERS, data.uri, data.version, data.headers, []⟩,
          some { data with body := acc })
  | ChunkStep.exhausted acc =>
    (⟨false, data.method, data.uri, data.version, data.headers, acc⟩,
     some { data with body := acc })

/-- `http_message_handler::continue_content_length_handling`: append the new
segment, then check the size cap, completion by exact length, and excess
length, in that order; the need-more result carries empty headers and body. -/
def continue_content_length_handling (cfg : Config) (data : http_data_under_handling)
    (msg : Str) : http_handled_data × Option http_data_under_handling :=
  let body := data.body ++ msg
  if body.length > cfg.MAX_BODY_SIZE then
    (⟨true, BAD_CONTENT_TOO_LARGE, data.uri, data.version, data.headers, []⟩,
     some { data with body := body })
  else if body.length = data.content_length then
    (⟨true, data.method, data.uri, data.version, data.headers, body⟩, none)
  else if body.length > data.content_length ∨ body.length > cfg.MAX_BODY_SIZE then
    (⟨true, BAD_CONTENT_TOO_LARGE, data.uri, data.version, data.headers, []⟩,
     some { data with body := body })
  else
    (⟨false, data.method, data.uri, data.version, [], []⟩,
     some { data with body := body })

/-- The framing-selection and body dispatch of
`http_message_handler::start_handling` after the headers are parsed.
`Except.error ()` models the exception that `std::stoull` throws out of
`start_handling` on a malformed `Content-Length` value. -/
def body_phase (cfg : Config) (method uri version : Str) (headers : List (Str × Str))
    (rest : Str) : Except Unit (http_handled_data × Option http_data_under_handling) :=
  let has_transfer_encoding :=
    (mmFind? headers TRANSFER_ENCODING_KEY).isSome
      && contains_chunked (mmEqualRange headers TRANSFER_ENCODING_KEY)
  let has_content_length := (mmFind? headers CONTENT_LENGTH_KEY).isSome
  if mmCount headers CONTENT_LENGTH_KEY > 1 ∨ (has_content_length ∧ has_transfer_encoding) then
    Except.ok (⟨true, BAD_REPEATED, uri, version, headers, []⟩, none)
  else if has_content_length then
    match stoull ((mmFind? headers CONTENT_LENGTH_KEY).getD []) with
    | none => Except.error ()
    | some n => Except.ok (handle_content_length cfg rest method uri version headers n)
  else if has_transfer_encoding then
    Except.ok (handle_chunked_encoding cfg rest method uri version headers)
  else Except.ok (⟨true, method, uri, version, headers, []⟩, none)

/-- `http_message_handler::start_handling`: request line, headers, framing
validation, body dispatch. -/
def start_handling (cfg : Config) (msg : Str) :
    Except Unit (http_handled_data × Option http_data_under_handling) :=
  match parse_request_line msg with
  | ⟨false, err, _, u, v, _⟩ => Except.ok (⟨true, err, u, v, [], []⟩, none)
  | ⟨true, _, m, u, v, rest⟩ =>
    match parse_headers cfg rest with
    | none => Except.ok (⟨true, BAD_HEADERS_TOO_LARGE, u, v, [], []⟩, none)
    | some (headers, rest2) => body_phase cfg m u v headers rest2

/-! ## Response builder (`http_response.hpp` / `http_response.cpp`) -/

/-- Decimal digit character. -/
def decDigit (d : Nat) : Char := Char.ofNat (48 + d)

/-- Fueled decimal printer for naturals (most significant digit first). -/
def natDecAux : Nat → Nat → Str
  | 0, _ => []
  | fuel + 1, n => if n < 10 then [decDigit n] else natDecAux fuel (n / 10) ++ [decDigit (n % 10)]

/-- Model of `std::ostream << int`: decimal with a leading minus sign for
negative values. -/
def intToDec (i : Int) : Str :=
  if i < 0 then '-' :: natDecAux (i.natAbs + 1) i.natAbs else natDecAux (i.toNat + 1) i.toNat

/-- `hamza_http::http_response`: the builder state, with the defaults of
`http_response.hpp` (`HTTP/1.1`, 200, `OK`). -/
structure http_response where
  version : Str := "HTTP/1.1".toList
  status_code : Int := 200
  status_message : Str := "OK".toList
  headers : List (Str × Str) := []
  trailers : List (Str × Str) := []
  body : Str := []
deriving DecidableEq, Repr

/-- `http_response::set_status`. -/
def set_status (r : http_response) (code : Int) (message : Str) : http_response :=
  { r with status_code := code, status_message := message }

/-- `http_response::set_body`. -/
def set_body (r : http_response) (body : Str) : http_response :=
  { r with body := body }

/-- `http_response::add_header`: the name is stored uppercased. -/
def add_header (r : http_response) (name value : Str) : http_response :=
  { r with headers := mmInsert r.headers (to_upper_case name) value }

/-- `http_response::add_trailer`: the name is stored uppercased. -/
def add_trailer (r : http_response) (name value : Str) : http_response :=
  { r with trailers := mmInsert r.trailers (to_upper_case name) value }

/-- One serialized `NAME: value\r\n` block per entry, name uppercased again
at serialization time, exactly as the loops in `http_response::to_string`. -/
def headerLines (hs : List (Str × Str)) : Str :=
  (hs.map (fun p => to_upper_case p.1 ++ ':' :: ' ' :: (p.2 ++ '\r' :: '\n' :: []))).flatten

/-- `http_response::to_string` (`http_response.cpp`): status line, `Date`
header with the current RFC 1123 time (a parameter here, since it is read
from the wall clock), the headers, a blank line, the body, then the
trailers.  The source emits `"\r\n" << body` when the body is non-empty and
`"\r\n"` alone otherwise, which concatenates to the same string. -/
def to_string (r : http_response) (date : Str) : Str :=
  r.version ++ ' ' :: (intToDec r.status_code ++ ' ' :: (r.status_message ++ '\r' :: '\n' ::
  ("Date: ".toList ++ date ++ '\r' :: '\n' ::
   (headerLines r.headers ++ '\r' :: '\n' :: (r.body ++ headerLines r.trailers)))))

/-! ## Connection close/send chain for `send()` and `end()`
(`http_response.cpp`, `tcp_server.cpp`, `socket.cpp`) -/

/-- Observable connection state: whether the socket descriptor is still
valid, how many times the descriptor has been closed at the OS level, and
the byte strings written to the wire. -/
structure ConnState where
  fd_valid : Bool
  close_count : Nat
  wire : List Str
deriving DecidableEq, Repr

/-- `hamza::socket::disconnect`: closes the descriptor only while it is
valid, then invalidates it; a second call finds the sentinel and does
nothing. -/
def socket_disconnect (s : ConnState) : ConnState :=
  if s.fd_valid then { fd_valid := false, close_count := s.close_count + 1, wire := s.wire } else s

/-- `tcp_server::remove_client`: drops the descriptor from the select set
and the client table (no wire-visible effect) and calls `disconnect`. -/
def remove_client (s : ConnState) : ConnState := socket_disconnect s

/-- `tcp_server::close_connection`, the target of the response's
`close_connection` callback. -/
def close_connection (s : ConnState) : ConnState := remove_client s

/-- The `send_message` callback: writes one serialized string to the wire. -/
def send_message (s : ConnState) (bytes : Str) : ConnState :=
  { s with wire := s.wire ++ [bytes] }

/-- `http_response::end` (`http_response.cpp`): `validate()` is constant
`true` there, so `end()` only invokes the close callback — it never writes. -/
def response_end (s : ConnState) : ConnState := close_connection s

/-- `http_response::send` (`http_response.cpp`): serializes and writes the
response; it does not close. -/
def response_send (r : http_response) (date : Str) (s : ConnState) : ConnState :=
  send_message s (to_string r date)

/-- A freshly accepted connection: valid descriptor, nothing closed,
nothing written. -/
def freshConn : ConnState := ⟨true, 0, []⟩

/-! ## Concrete scenario data used by individual claims -/

/-- A configuration with `MAX_BODY_SIZE` set to 4 (the limits are mutable
globals; a small value keeps concrete runs kernel-checkable). -/
def cfgSmallBody : Config := ⟨1024 * 16, 4⟩

/-- A configuration with `MAX_HEADER_SIZE` set to 10. -/
def cfgSmallHeader : Config := ⟨10, 1024 * 1024 * 5⟩

/-- Request with `Content-Length: 5` whose whole 5-byte body is in the first
segment. -/
def inputExactOversized : Str := "POST / HTTP/1.1\r\nContent-Length: 5\r\n\r\nhello".toList

/-- Stored chunked-parsing state after headers `Transfer-Encoding: chunked`
arrived (no body bytes yet). -/
def dataChunkedPending : http_data_under_handling :=
  ⟨handling_type.CHUNKED, 0, "POST".toList, "/".toList, "HTTP/1.1".toList,
   [("TRANSFER-ENCODING".toList, "chunked".toList)], []⟩

/-- The chunked request of the specification's end-to-end scenario 3. -/
def inputChunkedExample : Str :=
  "POST / HTTP/1.1\r\nTransfer-Encoding: chunked\r\n\r\n5\r\nhello\r\n6\r\n world\r\n0\r\n\r\n".toList

/-- A chunked request exercising a chunk extension after `;` and an
uppercase hexadecimal chunk size. -/
def inputChunkedExt : Str :=
  "POST / HTTP/1.1\r\nTransfer-Encoding: chunked\r\n\r\nA;name=val\r\n0123456789\r\n0\r\n\r\n".toList

/-- The response of the simple-GET scenario: status 200 `OK`, header
`Content-Type: text/plain`, body `hi`. -/
def scenarioSimpleGet : http_response :=
  set_body (add_header (set_status {} 200 "OK".toList) "Content-Type".toList "text/plain".toList)
    "hi".toList

/-- A concrete RFC 1123 GMT date string. -/
def dateRFC1123 : Str := "Thu, 01 Jan 1970 00:00:00 GMT".toList

/-- A response whose status message contains a space. -/
def respNotFound : http_response := set_status {} 404 "Not Found".toList

/-- Total header bytes retained by the assembler: the sum over the stored
entries of name length plus value length (uppercasing does not change a
length). -/
def headerBytes (hs : List (Str × Str)) : Nat :=
  (hs.map (fun p => p.1.length + p.2.length)).sum

/-- The whitespace-separated tokens of the first line of an input, after
stripping one trailing CR — exactly the candidate method/URI/version tokens
that `parse_request_line` extracts. -/
def requestLineTokens (s : Str) : List Str :=
  match getline s with
  | none => []
  | some (line, _) => if line = [] then [] else wordsWs (chopCR line)

/-- A non-empty string with no `istream` whitespace: survives `>>` token
extraction unchanged. -/
def isTokenStr (s : Str) : Prop := s ≠ [] ∧ ∀ c ∈ s, isStreamWs c = false

/-- A header name that serializes reversibly: non-empty, no colon (the
parser splits at the first colon), no newline. -/
def goodHeaderName (n : Str) : Prop := n ≠ [] ∧ ∀ c ∈ n, c ≠ ':' ∧ c ≠ '\n'

/-- A header value that survives the parser's trimming: no newline or
carriage return, and `find_first_not_of(" \t")` is 0 while
`find_last_not_of(" \t")` is the last index (no leading/trailing space or
tab; in particular non-empty). -/
def goodHeaderValue (v : Str) : Prop :=
  (∀ c ∈ v, c ≠ '\n' ∧ c ≠ '\r') ∧ firstNotST v = some 0 ∧ lastNotST v = some (v.length - 1)

/-- Sortedness invariant of the `std::multimap` model: adjacent keys never
decrease. -/
def mmSorted (hs : List (Str × Str)) : Prop :=
  List.Chain' (fun a b => strLt b.1 a.1 = false) hs

instance isTokenStr_decidable (s : Str) : Decidable (isTokenStr s) :=
  inferInstanceAs (Decidable (_ ∧ _))

instance goodHeaderName_decidable (n : Str) : Decidable (goodHeaderName n) :=
  inferInstanceAs (Decidable (_ ∧ _))

instance goodHeaderValue_decidable (v : Str) : Decidable (goodHeaderValue v) :=
  inferInstanceAs (Decidable (_ ∧ _))

/-- Folding step for re-inserting parsed header pairs into a multimap. -/
def mmInsertPair (a : List (Str × Str)) (p : Str × Str) : List (Str × Str) :=
  mmInsert a p.1 p.2

/-- The header key under which the automatic `Date` header is parsed back. -/
def DATE_KEY : Str := to_upper_case "Date".toList

/-- Serialized header block without the serializer's re-uppercasing: one
`name: value\r\n` per entry.  For a response whose stored names are already
uppercase (as `add_header` guarantees) this coincides with `headerLines`,
and it also matches the literal `Date: ` line `to_string` emits. -/
def rawHeaderLines (hs : List (Str × Str)) : Str :=
  (hs.map (fun p => p.1 ++ ':' :: ' ' :: (p.2 ++ '\r' :: '\n' :: []))).flatten

end HttpModel

namespace HttpModel

/-! ## Helper lemmas -/

theorem headerBytes_cons (p : Str × Str) (l : List (Str × Str)) :
    headerBytes (p :: l) = p.1.length + p.2.length + headerBytes l := by
  simp [headerBytes]

theorem headerBytes_mmInsert (m : List (Str × Str)) (k v : Str) :
    headerBytes (mmInsert m k v) = headerBytes m + (k.length + v.length) := by
  induction m with
  | nil => simp [mmInsert, headerBytes]
  | cons p rest ih =>
    by_cases h : strLt k p.1 = true
    · simp [mmInsert, h, headerBytes_cons]; omega
    · simp only [mmInsert, h] at *
      simp only [if_neg, Bool.false_eq_true, if_false, headerBytes_cons, ih]
      omega

theorem to_upper_case_length (s : Str) : (to_upper_case s).length = s.length := by
  simp [to_upper_case]

/-- Running-size invariant of the header loop: a successful parse retains at
most `MAX_HEADER_SIZE` header bytes. -/
theorem parse_headersAux_bound (cfg : Config) :
    ∀ (fuel : Nat) (s : Str) (acc : List (Str × Str)) (size : Nat),
      headerBytes acc = size → size ≤ cfg.MAX_HEADER_SIZE →
      ∀ hs rest, parse_headersAux cfg fuel s acc size = some (hs, rest) →
        headerBytes hs ≤ cfg.MAX_HEADER_SIZE := by
  intro fuel
  induction fuel with
  | zero =>
    intro s acc size h1 h2 hs rest h
    simp [parse_headersAux] at h
  | succ n ih =>
    intro s acc size h1 h2 hs rest h
    rw [parse_headersAux] at h
    cases hgl : getline s with
    | none =>
      rw [hgl] at h
      simp only [Option.some.injEq, Prod.mk.injEq] at h
      obtain ⟨rfl, rfl⟩ := h
      omega
    | some lr =>
      obtain ⟨line, rest2⟩ := lr
      rw [hgl] at h
      dsimp only at h
      by_cases hl : chopCR line = []
      · rw [if_pos hl] at h
        simp only [Option.some.injEq, Prod.mk.injEq] at h
        obtain ⟨rfl, rfl⟩ := h
        omega
      · rw [if_neg hl] at h
        cases hfc : findColon (chopCR line) with
        | none =>
          rw [hfc] at h
          exact ih rest2 acc size h1 h2 hs rest h
        | some i =>
          rw [hfc] at h
          dsimp only at h
          by_cases hsz : size + ((chopCR line).take i).length
              + (trimValue ((chopCR line).drop (i + 1))).length > cfg.MAX_HEADER_SIZE
          · rw [if_pos hsz] at h
            exact absurd h (by simp)
          · rw [if_neg hsz] at h
            refine ih rest2 _ _ ?_ ?_ hs rest h
            · rw [headerBytes_mmInsert, h1, to_upper_case_length]; omega
            · omega

theorem strLt_irrefl : ∀ a : Str, strLt a a = false := by
  intro a
  induction a with
  | nil => rfl
  | cons x xs ih => simp [strLt, ih]

theorem strLt_trans : ∀ a b c : Str, strLt a b = true → strLt b c = true → strLt a c = true := by
  intro a
  induction a with
  | nil =>
    intro b c hab hbc
    cases b with
    | nil => simp [strLt] at hab
    | cons y ys =>
      cases c with
      | nil => simp [strLt] at hbc
      | cons z zs => rfl
  | cons x xs ih =>
    intro b c hab hbc
    cases b with
    | nil => simp [strLt] at hab
    | cons y ys =>
      cases c with
      | nil => simp [strLt] at hbc
      | cons z zs =>
        simp only [strLt] at hab hbc ⊢
        by_cases hxy : x.toNat < y.toNat
        · by_cases hyz : y.toNat < z.toNat
          · simp [Nat.lt_trans hxy hyz]
          · by_cases hzy : z.toNat < y.toNat
            · simp [hyz, hzy] at hbc
            · have hlt : x.toNat < z.toNat := by omega
              simp [hlt]
        · by_cases hyx : y.toNat < x.toNat
          · simp [hxy, hyx] at hab
          · by_cases hyz : y.toNat < z.toNat
            · have hlt : x.toNat < z.toNat := by omega
              simp [hlt]
            · by_cases hzy : z.toNat < y.toNat
              · simp [hyz, hzy] at hbc
              · have hxz : ¬ x.toNat < z.toNat := by omega
                have hzx : ¬ z.toNat < x.toNat := by omega
                simp only [hxy, hyx, if_false] at hab
                simp only [hyz, hzy, if_false] at hbc
                simp [hxz, hzx]
                exact ih ys zs hab hbc

theorem strLt_eq_of_not : ∀ a b : Str, strLt a b = false → strLt b a = false → a = b := by
  intro a
  induction a with
  | nil =>
    intro b hab _
    cases b with
    | nil => rfl
    | cons y ys => simp [strLt] at hab
  | cons x xs ih =>
    intro b hab hba
    cases b with
    | nil => simp [strLt] at hba
    | cons y ys =>
      simp only [strLt] at hab hba
      by_cases hxy : x.toNat < y.toNat
      · simp_all
      · by_cases hyx : y.toNat < x.toNat
        · simp_all
        · have hn : x.toNat = y.toNat := by omega
          have hx : x = y := Char.eq_of_val_eq (UInt32.ext hn)
          simp only [hxy, hyx, if_false] at hab hba
          rw [hx, ih ys hab hba]

theorem strLt_asymm (a b : Str) (h : strLt a b = true) : strLt b a = false := by
  cases hba : strLt b a
  · rfl
  · exact absurd (strLt_trans a b a h hba) (by simp [strLt_irrefl])

theorem strLt_true_of_ne (a b : Str) (hne : a ≠ b) (h : strLt a b = false) :
    strLt b a = true := by
  cases hba : strLt b a
  · exact absurd (strLt_eq_of_not a b h hba) hne
  · rfl

theorem strLt_false_trans (a b c : Str) (h1 : strLt b a = false) (h2 : strLt c b = false) :
    strLt c a = false := by
  cases hca : strLt c a
  · rfl
  · by_cases hcb : c = b
    · subst hcb
      rw [hca] at h1
      exact absurd h1 (by simp)
    · have hbc : strLt b c = true := strLt_true_of_ne c b hcb h2
      have hba : strLt b a = true := strLt_trans b c a hbc hca
      rw [h1] at hba
      exact absurd hba (by simp)

theorem mmSorted_head_le (p : Str × Str) (t : List (Str × Str)) (h : mmSorted (p :: t)) :
    ∀ q ∈ t, strLt q.1 p.1 = false := by
  induction t generalizing p with
  | nil => intro q hq; simp at hq
  | cons r t' ih =>
    intro q hq
    have h1 : strLt r.1 p.1 = false := (List.chain'_cons.mp h).1
    have h2 : mmSorted (r :: t') := (List.chain'_cons.mp h).2
    rcases List.mem_cons.mp hq with rfl | hq2
    · exact h1
    · exact strLt_false_trans p.1 r.1 q.1 h1 (ih r h2 q hq2)

theorem foldl_mmInsertPair_cons (t : List (Str × Str)) :
    ∀ (p : Str × Str) (acc : List (Str × Str)),
      (∀ q ∈ t, strLt q.1 p.1 = false) →
      t.foldl mmInsertPair (p :: acc) = p :: t.foldl mmInsertPair acc := by
  induction t with
  | nil => intro p acc _; rfl
  | cons q t' ih =>
    intro p acc hge
    have hq : strLt q.1 p.1 = false := hge q (List.mem_cons_self q t')
    show t'.foldl mmInsertPair (mmInsertPair (p :: acc) q)
        = p :: t'.foldl mmInsertPair (mmInsertPair acc q)
    have he : mmInsertPair (p :: acc) q = p :: mmInsertPair acc q := by
      simp [mmInsertPair, mmInsert, hq]
    rw [he]
    exact ih p (mmInsertPair acc q) (fun r hr => hge r (List.mem_cons_of_mem q hr))

theorem foldl_mmInsertPair_sorted (t : List (Str × Str)) :
    ∀ p : Str × Str, mmSorted (p :: t) → t.foldl mmInsertPair [p] = p :: t := by
  induction t with
  | nil => intro p _; rfl
  | cons q t' ih =>
    intro p hs
    obtain ⟨h1, h2⟩ := List.chain'_cons.mp hs
    show t'.foldl mmInsertPair (mmInsertPair [p] q) = p :: q :: t'
    have he : mmInsertPair [p] q = p :: [q] := by
      simp [mmInsertPair, mmInsert, h1]
    rw [he]
    have hge : ∀ r ∈ t', strLt r.1 p.1 = false := fun r hr =>
      strLt_false_trans p.1 q.1 r.1 h1 (mmSorted_head_le q t' h2 r hr)
    rw [foldl_mmInsertPair_cons t' p [q] hge, ih q h2]

theorem foldl_mmInsertPair_merge (dk d : Str) :
    ∀ hs : List (Str × Str), mmSorted hs → (∀ p ∈ hs, p.1 ≠ dk) →
      hs.foldl mmInsertPair [(dk, d)] = mmInsert hs dk d := by
  intro hs
  induction hs with
  | nil => intro _ _; rfl
  | cons p t ih =>
    intro hsorted hne
    have htail : mmSorted t := hsorted.tail
    by_cases hlt : strLt p.1 dk = true
    · show t.foldl mmInsertPair (mmInsertPair [(dk, d)] p) = mmInsert (p :: t) dk d
      have he : mmInsertPair [(dk, d)] p = p :: [(dk, d)] := by
        simp [mmInsertPair, mmInsert, hlt]
      rw [he, foldl_mmInsertPair_cons t p [(dk, d)] (mmSorted_head_le p t hsorted),
        ih htail (fun q hq => hne q (List.mem_cons_of_mem p hq))]
      have hnd : strLt dk p.1 = false := strLt_asymm p.1 dk hlt
      simp [mmInsert, hnd]
    · have hlt2 : strLt p.1 dk = false := by simpa using hlt
      have hne1 : p.1 ≠ dk := hne p (List.mem_cons_self p t)
      have hdklt : strLt dk p.1 = true := strLt_true_of_ne p.1 dk hne1 hlt2
      show t.foldl mmInsertPair (mmInsertPair [(dk, d)] p) = mmInsert (p :: t) dk d
      have he : mmInsertPair [(dk, d)] p = (dk, d) :: [p] := by
        simp [mmInsertPair, mmInsert, hlt2]
      have hge : ∀ q ∈ t, strLt q.1 dk = false := by
        intro q hq
        cases hq2 : strLt q.1 dk
        · rfl
        · have := strLt_trans q.1 dk p.1 hq2 hdklt
          rw [mmSorted_head_le p t hsorted q hq] at this
          exact absurd this (by simp)
      rw [he, foldl_mmInsertPair_cons t (dk, d) [p] hge,
        foldl_mmInsertPair_sorted t p hsorted]
      simp [mmInsert, hdklt]

theorem takeWhile_append_nl : ∀ (l : Str), (∀ c ∈ l, c ≠ '\n') → ∀ tail : Str,
    (l ++ '\n' :: tail).takeWhile (fun c => ¬ c = '\n') = l := by
  intro l
  induction l with
  | nil => intro _ tail; simp
  | cons c cs ih =>
    intro hl tail
    have hc : c ≠ '\n' := hl c (List.mem_cons_self c cs)
    simp only [List.cons_append, List.takeWhile_cons]
    rw [if_pos (decide_eq_true hc)]
    rw [ih (fun x hx => hl x (List.mem_cons_of_mem c hx)) tail]

theorem dropWhile_append_nl : ∀ (l : Str), (∀ c ∈ l, c ≠ '\n') → ∀ tail : Str,
    (l ++ '\n' :: tail).dropWhile (fun c => ¬ c = '\n') = '\n' :: tail := by
  intro l
  induction l with
  | nil => intro _ tail; simp
  | cons c cs ih =>
    intro hl tail
    have hc : c ≠ '\n' := hl c (List.mem_cons_self c cs)
    simp only [List.cons_append, List.dropWhile_cons]
    rw [if_pos (decide_eq_true hc)]
    rw [ih (fun x hx => hl x (List.mem_cons_of_mem c hx)) tail]

theorem getline_append (l tail : Str) (hl : ∀ c ∈ l, c ≠ '\n') :
    getline (l ++ '\n' :: tail) = some (l, tail) := by
  unfold getline
  rw [if_neg (by simp)]
  rw [takeWhile_append_nl l hl tail, dropWhile_append_nl l hl tail]
  rfl

theorem chopCR_concat (x : Str) : chopCR (x ++ ['\r']) = x := by
  unfold chopCR
  rw [List.getLast?_concat]
  simp [List.dropLast_concat]

theorem findColon_append : ∀ (n : Str), (∀ c ∈ n, c ≠ ':') → ∀ rest : Str,
    findColon (n ++ ':' :: rest) = some n.length := by
  intro n
  induction n with
  | nil => intro _ rest; simp [findColon]
  | cons c cs ih =>
    intro hn rest
    have hc : c ≠ ':' := hn c (List.mem_cons_self c cs)
    simp only [List.cons_append]
    rw [findColon, if_neg hc, ih (fun x hx => hn x (List.mem_cons_of_mem c hx)) rest]
    simp

theorem drop_len_cons : ∀ (l : Str) (c : Char) (r : Str),
    (l ++ c :: r).drop (l.length + 1) = r := by
  intro l
  induction l with
  | nil => intro c r; rfl
  | cons x xs ih =>
    intro c r
    show (xs ++ c :: r).drop (xs.length + 1) = r
    exact ih c r

theorem trimValue_sp (v : Str) (hv : goodHeaderValue v) : trimValue (' ' :: v) = v := by
  obtain ⟨-, h1, h2⟩ := hv
  have hne : v ≠ [] := by
    intro h
    subst h
    simp [firstNotST] at h1
  have hf : firstNotST (' ' :: v) = some 1 := by
    simp [firstNotST, isSpTab, h1]
  simp only [trimValue, hf]
  have hd : (' ' :: v).drop 1 = v := rfl
  rw [hd, h2]
  have hlen : v.length - 1 + 1 = v.length := by
    have := List.length_pos.mpr hne
    omega
  simp only [hlen, List.take_length]

theorem wordsAux_token : ∀ (t : Str), (∀ c ∈ t, isStreamWs c = false) →
    ∀ (s cur : Str), wordsAux (t ++ s) cur = wordsAux s (t.reverse ++ cur) := by
  intro t
  induction t with
  | nil => intro _ s cur; simp
  | cons c cs ih =>
    intro ht s cur
    have hc : isStreamWs c = false := ht c (List.mem_cons_self c cs)
    show wordsAux (c :: (cs ++ s)) cur = _
    simp only [wordsAux, hc, Bool.false_eq_true, if_false]
    rw [ih (fun x hx => ht x (List.mem_cons_of_mem c hx)) s (c :: cur)]
    simp [List.append_assoc]

theorem wordsAux_space (s cur : Str) (h : cur ≠ []) :
    wordsAux (' ' :: s) cur = cur.reverse :: wordsAux s [] := by
  have hsp : isStreamWs ' ' = true := rfl
  simp [wordsAux, hsp, h]

theorem wordsAux_single (t : Str) (ht : ∀ c ∈ t, isStreamWs c = false) (hne : t ≠ []) :
    wordsAux t [] = [t] := by
  have h := wordsAux_token t ht [] []
  simp only [List.append_nil] at h
  rw [h, wordsAux]
  simp [hne]

/-- Tokenizing `A SP B SP C` for whitespace-free non-empty tokens yields
exactly the three tokens. -/
theorem wordsWs_three (a b c : Str) (ha : isTokenStr a) (hb : isTokenStr b)
    (hc : isTokenStr c) :
    wordsWs (a ++ ' ' :: (b ++ ' ' :: c)) = [a, b, c] := by
  unfold wordsWs
  rw [wordsAux_token a ha.2, List.append_nil]
  rw [wordsAux_space _ _ (by simpa using ha.1), List.reverse_reverse]
  rw [wordsAux_token b hb.2, List.append_nil]
  rw [wordsAux_space _ _ (by simpa using hb.1), List.reverse_reverse]
  rw [wordsAux_single c hc.2 hc.1]

theorem natDecAux_mem : ∀ (fuel n : Nat) (c : Char), c ∈ natDecAux fuel n →
    ∃ k, k < 10 ∧ c = decDigit k := by
  intro fuel
  induction fuel with
  | zero => intro n c h; simp [natDecAux] at h
  | succ f ih =>
    intro n c h
    simp only [natDecAux] at h
    split at h
    · rw [List.mem_singleton] at h
      exact ⟨n, by assumption, h⟩
    · rcases List.mem_append.mp h with h2 | h2
      · exact ih _ c h2
      · rw [List.mem_singleton] at h2
        exact ⟨n % 10, Nat.mod_lt _ (by omega), h2⟩

theorem decDigit_not_ws : ∀ k, k < 10 → isStreamWs (decDigit k) = false := by decide

theorem natDecAux_ne_nil (n : Nat) : natDecAux (n + 1) n ≠ [] := by
  simp only [natDecAux]
  split
  · simp
  · simp

/-- The decimal print of a status code is a non-empty whitespace-free
token. -/
theorem intToDec_token (i : Int) : isTokenStr (intToDec i) := by
  unfold intToDec
  split
  · refine ⟨by simp, ?_⟩
    intro c hcm
    rcases List.mem_cons.mp hcm with rfl | hcm
    · rfl
    · obtain ⟨k, hk, rfl⟩ := natDecAux_mem _ _ c hcm
      exact decDigit_not_ws k hk
  · refine ⟨natDecAux_ne_nil _, ?_⟩
    intro c hcm
    obtain ⟨k, hk, rfl⟩ := natDecAux_mem _ _ c hcm
    exact decDigit_not_ws k hk

theorem ne_nl_of_not_ws (c : Char) (h : isStreamWs c = false) : c ≠ '\n' := by
  intro heq
  rw [heq] at h
  exact absurd h (by decide)

/-- Parsing a serialized header block: feeding `name: value\r\n` lines
followed by the blank line to the header loop recovers every pair
(name uppercased, value trimmed back to itself) and leaves the tail
untouched, provided names are colon- and newline-free, values survive
trimming, and the cumulative size fits in `MAX_HEADER_SIZE`. -/
theorem parse_raw_serialized (cfg : Config) :
    ∀ (hs : List (Str × Str)),
      (∀ p ∈ hs, ∀ c ∈ p.1, c ≠ ':' ∧ c ≠ '\n') →
      (∀ p ∈ hs, goodHeaderValue p.2) →
      ∀ (fuel : Nat) (acc : List (Str × Str)) (size : Nat) (tail : Str),
        size + headerBytes hs ≤ cfg.MAX_HEADER_SIZE →
        (rawHeaderLines hs ++ '\r' :: '\n' :: tail).length ≤ fuel →
        parse_headersAux cfg fuel (rawHeaderLines hs ++ '\r' :: '\n' :: tail) acc size
          = some (hs.foldl (fun a p => mmInsert a (to_upper_case p.1) p.2) acc, tail) := by
  intro hs
  induction hs with
  | nil =>
    intro _ _ fuel acc size tail _ hfuel
    cases fuel with
    | zero => simp [rawHeaderLines] at hfuel
    | succ f =>
      have hg : getline ('\r' :: '\n' :: tail) = some (['\r'], tail) := by
        have h := getline_append ['\r'] tail (by intro c hc; simp at hc; subst hc; decide)
        simpa using h
      show parse_headersAux cfg (f + 1) ('\r' :: '\n' :: tail) acc size = _
      rw [parse_headersAux, hg]
      rfl
  | cons p t ih =>
    intro hnames hvals fuel acc size tail hsize hfuel
    have hnp : ∀ c ∈ p.1, c ≠ ':' ∧ c ≠ '\n' := hnames p (List.mem_cons_self p t)
    have hvp : goodHeaderValue p.2 := hvals p (List.mem_cons_self p t)
    have hsplit : rawHeaderLines (p :: t) ++ '\r' :: '\n' :: tail
        = (p.1 ++ ':' :: ' ' :: (p.2 ++ ['\r'])) ++ '\n' ::
            (rawHeaderLines t ++ '\r' :: '\n' :: tail) := by
      simp [rawHeaderLines, List.append_assoc]
    have hnol : ∀ c ∈ p.1 ++ ':' :: ' ' :: (p.2 ++ ['\r']), c ≠ '\n' := by
      intro c hcm
      simp only [List.mem_append, List.mem_cons, List.not_mem_nil, or_false] at hcm
      rcases hcm with h | h | h | h | h
      · exact (hnp c h).2
      · subst h; decide
      · subst h; decide
      · exact (hvp.1 c h).1
      · subst h; decide
    cases fuel with
    | zero =>
      rw [hsplit] at hfuel
      simp at hfuel
    | succ f =>
      rw [hsplit, parse_headersAux,
        getline_append (p.1 ++ ':' :: ' ' :: (p.2 ++ ['\r'])) _ hnol]
      have hcr : chopCR (p.1 ++ ':' :: ' ' :: (p.2 ++ ['\r'])) = p.1 ++ ':' :: ' ' :: p.2 := by
        rw [show p.1 ++ ':' :: ' ' :: (p.2 ++ ['\r'])
            = (p.1 ++ ':' :: ' ' :: p.2) ++ ['\r'] from by simp [List.append_assoc]]
        exact chopCR_concat (p.1 ++ ':' :: ' ' :: p.2)
      dsimp only
      rw [hcr]
      rw [if_neg (by simp)]
      rw [findColon_append p.1 (fun c hcm => (hnp c hcm).1) (' ' :: p.2)]
      dsimp only
      rw [List.take_left, drop_len_cons p.1 ':' (' ' :: p.2), trimValue_sp p.2 hvp]
      have hsz : ¬ size + p.1.length + p.2.length > cfg.MAX_HEADER_SIZE := by
        rw [headerBytes_cons] at hsize
        omega
      rw [if_neg hsz]
      have hfuel2 : (rawHeaderLines t ++ '\r' :: '\n' :: tail).length ≤ f := by
        rw [hsplit] at hfuel
        simp only [List.length_append, List.length_cons] at hfuel ⊢
        omega
      have hsize2 : size + p.1.length + p.2.length + headerBytes t ≤ cfg.MAX_HEADER_SIZE := by
        rw [headerBytes_cons] at hsize
        omega
      rw [ih (fun q hq => hnames q (List.mem_cons_of_mem p hq))
        (fun q hq => hvals q (List.mem_cons_of_mem p hq)) f
        (mmInsert acc (to_upper_case p.1) p.2) (size + p.1.length + p.2.length) tail
        hsize2 hfuel2]
      rfl

theorem foldl_upper_eq : ∀ (hs : List (Str × Str)),
    (∀ p ∈ hs, to_upper_case p.1 = p.1) →
    ∀ acc, hs.foldl (fun a p => mmInsert a (to_upper_case p.1) p.2) acc
      = hs.foldl mmInsertPair acc := by
  intro hs
  induction hs with
  | nil => intro _ acc; rfl
  | cons p t ih =>
    intro hupper acc
    simp only [List.foldl_cons]
    rw [hupper p (List.mem_cons_self p t)]
    exact ih (fun q hq => hupper q (List.mem_cons_of_mem p hq)) (mmInsert acc p.1 p.2)

theorem headerLines_eq_raw : ∀ (hs : List (Str × Str)),
    (∀ p ∈ hs, to_upper_case p.1 = p.1) → headerLines hs = rawHeaderLines hs := by
  intro hs
  induction hs with
  | nil => intro _; rfl
  | cons p t ih =>
    intro hupper
    show to_upper_case p.1 ++ ':' :: ' ' :: (p.2 ++ '\r' :: '\n' :: []) ++ headerLines t = _
    rw [hupper p (List.mem_cons_self p t), ih (fun q hq => hupper q (List.mem_cons_of_mem p hq))]
    rfl

theorem wordsAux_mem_ne_nil : ∀ (s cur t : Str), t ∈ wordsAux s cur → t ≠ [] := by
  intro s
  induction s with
  | nil =>
    intro cur t ht
    simp only [wordsAux] at ht
    split at ht
    · simp at ht
    · rename_i hcur
      rw [List.mem_singleton] at ht
      subst ht
      simpa using hcur
  | cons c cs ih =>
    intro cur t ht
    simp only [wordsAux] at ht
    split at ht
    · split at ht
      · exact ih [] t ht
      · rename_i hcur
        rcases List.mem_cons.mp ht with h | h
        · subst h; simpa using hcur
        · exact ih [] t h
    · exact ih (c :: cur) t ht

theorem requestLineTokens_ne_nil (s : Str) : ∀ t ∈ requestLineTokens s, t ≠ [] := by
  intro t ht
  simp only [requestLineTokens] at ht
  split at ht
  · simp at ht
  · split at ht
    · simp at ht
    · exact wordsAux_mem_ne_nil _ [] t ht

theorem getD_eq_nil_iff (toks : List Str) (h : ∀ t ∈ toks, t ≠ []) (i : Nat) :
    ((toks[i]?).getD [] = []) ↔ toks.length ≤ i := by
  constructor
  · intro hg
    by_contra hlt
    push_neg at hlt
    rw [List.getElem?_eq_getElem hlt] at hg
    simp only [Option.getD_some] at hg
    exact h _ (List.getElem_mem hlt) hg
  · intro hle
    rw [List.getElem?_eq_none hle]
    rfl

/-- Field-level characterization of `parse_request_line` in terms of the
first line's whitespace-separated tokens. -/
theorem parse_request_line_fields (msg : Str) :
    (parse_request_line msg).method = ((requestLineTokens msg)[0]?).getD [] ∧
    (parse_request_line msg).uri = ((requestLineTokens msg)[1]?).getD [] ∧
    (parse_request_line msg).version = ((requestLineTokens msg)[2]?).getD [] ∧
    ((parse_request_line msg).valid = true ↔
      ¬(((requestLineTokens msg)[0]?).getD [] = [] ∨ ((requestLineTokens msg)[1]?).getD [] = []
        ∨ ((requestLineTokens msg)[2]?).getD [] = [])) ∧
    ((parse_request_line msg).valid = false →
      (parse_request_line msg).err = BAD_METHOD_OR_URI_OR_VERSION) := by
  unfold parse_request_line requestLineTokens
  cases hgl : getline msg with
  | none =>
    simp
  | some lr =>
    obtain ⟨line, rest⟩ := lr
    by_cases h0 : line = []
    · simp [h0]
    · simp only [h0, if_false]
      split <;> simp_all

end HttpModel

namespace HttpModel

/-! # Claim theorems -/

/-- C8: counterexample. The response `HTTP/1.1 404 Not Found` (no headers,
US-ASCII everywhere, concrete date `D`) does not round-trip: the
request-side line parser recovers only the first status-message token
(`Not`, not `Not Found`), and the parsed header sequence carries the
automatically added `DATE` entry absent from the response's (empty) header
multimap. -/
theorem C8_roundtrip_counterexample :
    (∀ c ∈ respNotFound.status_message, c.toNat < 128) ∧
    respNotFound.headers = [] ∧
    (parse_request_line (to_string respNotFound "D".toList)).version
      ≠ respNotFound.status_message ∧
    parse_headers defaultConfig (parse_request_line (to_string respNotFound "D".toList)).rest
      = some ([(DATE_KEY, "D".toList)], []) := by
  decide

/-- C8 (amended): serialize-then-parse of the status line and headers is
lossless once the status-line fields are single whitespace-free tokens and
the headers are well-behaved: for a response whose version and status
message are non-empty whitespace-free tokens, whose header names are
non-empty, colon- and newline-free, stored uppercased in multimap order and
distinct from `DATE`, whose header values (and the date) have no CR/LF and
no leading or trailing blank, and whose serialized header bytes fit in
`MAX_HEADER_SIZE`, the request-side parsers recover the exact status-line
fields and exactly the response's header pairs plus the automatic `DATE`
header in multimap order. -/
theorem C8_amended_roundtrip (cfg : Config) (r : http_response) (d : Str)
    (hver : isTokenStr r.version)
    (hmsg : isTokenStr r.status_message)
    (hdate : goodHeaderValue d)
    (hnames : ∀ p ∈ r.headers, goodHeaderName p.1)
    (hvals : ∀ p ∈ r.headers, goodHeaderValue p.2)
    (hupper : ∀ p ∈ r.headers, to_upper_case p.1 = p.1)
    (hsorted : mmSorted r.headers)
    (hnodate : ∀ p ∈ r.headers, p.1 ≠ DATE_KEY)
    (hsize : 4 + d.length + headerBytes r.headers ≤ cfg.MAX_HEADER_SIZE) :
    parse_request_line (to_string r d) =
      ⟨true, [], r.version, intToDec r.status_code, r.status_message,
        rawHeaderLines (("Date".toList, d) :: r.headers) ++ '\r' :: '\n' ::
          (r.body ++ headerLines r.trailers)⟩ ∧
    parse_headers cfg (parse_request_line (to_string r d)).rest
      = some (mmInsert r.headers DATE_KEY d, r.body ++ headerLines r.trailers) := by
  have hcode := intToDec_token r.status_code
  have hstatus : to_string r d
      = ((r.version ++ ' ' :: (intToDec r.status_code ++ ' ' :: r.status_message)) ++ ['\r'])
        ++ '\n' :: (rawHeaderLines (("Date".toList, d) :: r.headers) ++ '\r' :: '\n' ::
          (r.body ++ headerLines r.trailers)) := by
    rw [to_string]
    rw [show rawHeaderLines (("Date".toList, d) :: r.headers)
        = ("Date".toList ++ ':' :: ' ' :: (d ++ '\r' :: '\n' :: [])) ++ rawHeaderLines r.headers
      from rfl]
    rw [← headerLines_eq_raw r.headers hupper]
    rw [show ("Date: ".toList : Str) = 'D' :: 'a' :: 't' :: 'e' :: ':' :: ' ' :: [] from rfl]
    rw [show ("Date".toList : Str) = 'D' :: 'a' :: 't' :: 'e' :: [] from rfl]
    simp only [List.append_assoc, List.cons_append, List.nil_append]
  have hnostatus : ∀ c ∈ (r.version ++ ' ' :: (intToDec r.status_code ++ ' ' :: r.status_message))
      ++ ['\r'], c ≠ '\n' := by
    intro c hcm
    simp only [List.mem_append, List.mem_cons, List.not_mem_nil, or_false] at hcm
    rcases hcm with (h | h | h | h | h) | h
    · exact ne_nl_of_not_ws c (hver.2 c h)
    · subst h; decide
    · exact ne_nl_of_not_ws c (hcode.2 c h)
    · subst h; decide
    · exact ne_nl_of_not_ws c (hmsg.2 c h)
    · subst h; decide
  have hline : parse_request_line (to_string r d) =
      ⟨true, [], r.version, intToDec r.status_code, r.status_message,
        rawHeaderLines (("Date".toList, d) :: r.headers) ++ '\r' :: '\n' ::
          (r.body ++ headerLines r.trailers)⟩ := by
    unfold parse_request_line
    rw [hstatus, getline_append _ _ hnostatus]
    dsimp only
    rw [if_neg (show ¬ ((r.version ++ ' ' :: (intToDec r.status_code ++ ' ' :: r.status_message))
      ++ ['\r']) = [] by simp)]
    rw [chopCR_concat (r.version ++ ' ' :: (intToDec r.status_code ++ ' ' :: r.status_message))]
    rw [wordsWs_three r.version (intToDec r.status_code) r.status_message hver hcode hmsg]
    simp only [List.getElem?_cons_zero, List.getElem?_cons_succ, Option.getD_some]
    rw [if_neg (by simp [hver.1, hcode.1, hmsg.1])]
  refine ⟨hline, ?_⟩
  rw [hline]
  dsimp only
  unfold parse_headers
  rw [parse_raw_serialized cfg (("Date".toList, d) :: r.headers)
    ?hn ?hv _ [] 0 (r.body ++ headerLines r.trailers) ?hs (by omega)]
  case hn =>
    intro p hp
    rcases List.mem_cons.mp hp with rfl | hp2
    · exact (by decide : ∀ c ∈ ("Date".toList : Str), c ≠ ':' ∧ c ≠ '\n')
    · intro c hcm
      exact (hnames p hp2).2 c hcm
  case hv =>
    intro p hp
    rcases List.mem_cons.mp hp with rfl | hp2
    · exact hdate
    · exact hvals p hp2
  case hs =>
    rw [headerBytes_cons]
    simp only [Nat.zero_add]
    rw [show ("Date".toList : Str).length = 4 from rfl]
    omega
  rw [List.foldl_cons]
  rw [show mmInsert [] (to_upper_case ("Date".toList : Str)) d = [(DATE_KEY, d)] from rfl]
  rw [foldl_upper_eq r.headers hupper [(DATE_KEY, d)]]
  rw [foldl_mmInsertPair_merge DATE_KEY d r.headers hsorted hnodate]

/-- C8 witness: the simple-GET response (status `200 OK`, single header
`CONTENT-TYPE: text/plain`) with a concrete RFC 1123 date round-trips to
its header multimap plus the automatic `DATE` entry. -/
theorem C8_amended_roundtrip_witness :
    mmSorted scenarioSimpleGet.headers ∧
    parse_headers defaultConfig
        (parse_request_line (to_string scenarioSimpleGet dateRFC1123)).rest
      = some (mmInsert scenarioSimpleGet.headers DATE_KEY dateRFC1123,
          scenarioSimpleGet.body ++ headerLines scenarioSimpleGet.trailers) :=
  ⟨List.chain'_singleton _,
    (C8_amended_roundtrip defaultConfig scenarioSimpleGet dateRFC1123
      (by decide) (by decide) (by decide) (by decide) (by decide) (by decide)
      (List.chain'_singleton _) (by decide) (by decide)).2⟩

/-- C5: request-line parsing succeeds exactly when the first line (after
stripping one trailing CR) yields at least three non-empty
whitespace-separated tokens; with fewer tokens — including an empty input —
`start_handling` answers Fatal `BAD_METHOD_OR_URI_OR_VERSION`; and on
success the method, URI and version are exactly the first three tokens. -/
theorem C5_request_line_validation (cfg : Config) (msg : Str) :
    ((parse_request_line msg).valid = true ↔ 3 ≤ (requestLineTokens msg).length) ∧
    ((requestLineTokens msg).length < 3 →
      start_handling cfg msg = Except.ok
        (⟨true, BAD_METHOD_OR_URI_OR_VERSION, ((requestLineTokens msg)[1]?).getD [],
          ((requestLineTokens msg)[2]?).getD [], [], []⟩, none)) ∧
    ((parse_request_line msg).method = ((requestLineTokens msg)[0]?).getD [] ∧
      (parse_request_line msg).uri = ((requestLineTokens msg)[1]?).getD [] ∧
      (parse_request_line msg).version = ((requestLineTokens msg)[2]?).getD []) := by
  obtain ⟨hm, hu, hv, hiff, herr⟩ := parse_request_line_fields msg
  have hne := requestLineTokens_ne_nil msg
  have hiff3 : (parse_request_line msg).valid = true ↔ 3 ≤ (requestLineTokens msg).length := by
    rw [hiff, getD_eq_nil_iff _ hne 0, getD_eq_nil_iff _ hne 1, getD_eq_nil_iff _ hne 2]
    omega
  refine ⟨hiff3, ?_, hm, hu, hv⟩
  intro hlt
  have hvf : (parse_request_line msg).valid = false := by
    cases hval : (parse_request_line msg).valid
    · rfl
    · exact absurd (hiff3.mp hval) (by omega)
  rcases hq : parse_request_line msg with ⟨val, err, mm, uu, vv, rr⟩
  rw [hq] at hvf herr hu hv
  dsimp only at hvf herr hu hv
  subst hvf
  unfold start_handling
  rw [hq]
  dsimp only
  rw [herr rfl, hu, hv]

/-- C5 witness: the request line `GET /x` has only two tokens, so the
assembler answers Fatal `BAD_METHOD_OR_URI_OR_VERSION` (with the partial
URI token and empty version). -/
theorem C5_request_line_validation_witness :
    (requestLineTokens "GET /x\r\n\r\n".toList).length < 3 ∧
    start_handling defaultConfig "GET /x\r\n\r\n".toList = Except.ok
      (⟨true, BAD_METHOD_OR_URI_OR_VERSION, "/x".toList, [], [], []⟩, none) :=
  ⟨by decide,
    ((C5_request_line_validation defaultConfig "GET /x\r\n\r\n".toList).2.1 (by decide)).trans
      (by decide)⟩

/-- C4: once the request line parses, a header-size overflow (the running
sum of name plus trimmed-value lengths exceeding `MAX_HEADER_SIZE`) makes
`parse_headers` abort and `start_handling` return a Fatal
`BAD_HEADERS_TOO_LARGE` result that retains no headers; and whenever header
parsing succeeds, the retained header bytes are at most
`MAX_HEADER_SIZE`. -/
theorem C4_header_size_bound (cfg : Config) (msg m u v s1 : Str)
    (hline : parse_request_line msg = ⟨true, [], m, u, v, s1⟩) :
    (parse_headers cfg s1 = none →
      start_handling cfg msg = Except.ok (⟨true, BAD_HEADERS_TOO_LARGE, u, v, [], []⟩, none)) ∧
    (∀ hs rest, parse_headers cfg s1 = some (hs, rest) →
      headerBytes hs ≤ cfg.MAX_HEADER_SIZE) := by
  constructor
  · intro hnone
    unfold start_handling
    rw [hline]
    dsimp only
    rw [hnone]
  · intro hs rest hsome
    exact parse_headersAux_bound cfg _ s1 [] 0 rfl (Nat.zero_le _) hs rest hsome

/-- C4 witness: with `MAX_HEADER_SIZE = 10`, the single header
`X: 123456789012` (1 + 12 = 13 bytes) overflows and the assembler answers
Fatal `BAD_HEADERS_TOO_LARGE` with no headers retained. -/
theorem C4_header_size_bound_witness :
    parse_request_line "GET / HTTP/1.1\r\nX: 123456789012\r\n\r\n".toList =
      ⟨true, [], "GET".toList, "/".toList, "HTTP/1.1".toList,
        "X: 123456789012\r\n\r\n".toList⟩ ∧
    parse_headers cfgSmallHeader "X: 123456789012\r\n\r\n".toList = none ∧
    start_handling cfgSmallHeader "GET / HTTP/1.1\r\nX: 123456789012\r\n\r\n".toList =
      Except.ok (⟨true, BAD_HEADERS_TOO_LARGE, "/".toList, "HTTP/1.1".toList, [], []⟩, none) :=
  ⟨by decide, by decide,
    (C4_header_size_bound cfgSmallHeader "GET / HTTP/1.1\r\nX: 123456789012\r\n\r\n".toList
      "GET".toList "/".toList "HTTP/1.1".toList "X: 123456789012\r\n\r\n".toList
      (by decide)).1 (by decide)⟩

/-- C2: whenever the parsed header multimap has more than one
`Content-Length` entry, or has a `Content-Length` entry together with a
`Transfer-Encoding` entry whose value contains `chunked` case-insensitively,
`start_handling` answers Fatal `BAD_REPEATED_LENGTH_OR_TRANSFER_ENCODING_OR_BOTH`
with an empty body — before any body handling (in particular the
`Content-Length` value is never even converted). -/
theorem C2_conflicting_framing_fatal (cfg : Config) (msg m u v s1 rest : Str)
    (hs : List (Str × Str))
    (hline : parse_request_line msg = ⟨true, [], m, u, v, s1⟩)
    (hhdr : parse_headers cfg s1 = some (hs, rest))
    (hcond : mmCount hs CONTENT_LENGTH_KEY > 1 ∨
      ((mmFind? hs CONTENT_LENGTH_KEY).isSome = true ∧
        ((mmFind? hs TRANSFER_ENCODING_KEY).isSome
          && contains_chunked (mmEqualRange hs TRANSFER_ENCODING_KEY)) = true)) :
    start_handling cfg msg = Except.ok (⟨true, BAD_REPEATED, u, v, hs, []⟩, none) := by
  unfold start_handling
  rw [hline]
  dsimp only
  rw [hhdr]
  unfold body_phase
  simp only []
  rw [if_pos hcond]

/-- C2 witness: a request carrying both `Content-Length: 3` and
`Transfer-Encoding: chunked` is rejected with the repeated/both code. -/
theorem C2_conflicting_framing_fatal_witness :
    parse_request_line
        "GET / HTTP/1.1\r\nContent-Length: 3\r\nTransfer-Encoding: chunked\r\n\r\n".toList =
      ⟨true, [], "GET".toList, "/".toList, "HTTP/1.1".toList,
        "Content-Length: 3\r\nTransfer-Encoding: chunked\r\n\r\n".toList⟩ ∧
    start_handling defaultConfig
        "GET / HTTP/1.1\r\nContent-Length: 3\r\nTransfer-Encoding: chunked\r\n\r\n".toList =
      Except.ok (⟨true, BAD_REPEATED, "/".toList, "HTTP/1.1".toList,
        [("CONTENT-LENGTH".toList, "3".toList),
         ("TRANSFER-ENCODING".toList, "chunked".toList)], []⟩, none) :=
  ⟨by decide,
    C2_conflicting_framing_fatal defaultConfig
      "GET / HTTP/1.1\r\nContent-Length: 3\r\nTransfer-Encoding: chunked\r\n\r\n".toList
      "GET".toList "/".toList "HTTP/1.1".toList
      "Content-Length: 3\r\nTransfer-Encoding: chunked\r\n\r\n".toList
      "".toList
      [("CONTENT-LENGTH".toList, "3".toList), ("TRANSFER-ENCODING".toList, "chunked".toList)]
      (by decide) (by decide) (by decide)⟩

/-- C1: counter-evidence. With `MAX_BODY_SIZE = 4`, a request declaring
`Content-Length: 5` whose full 5-byte body arrives in the first segment is
returned as a `Complete` result whose body has 5 bytes — `start_handling`
checks `body.size() == content_length` before any `MAX_BODY_SIZE`
comparison, so an oversized declared length is not fatal when the body
arrives exactly in the first segment, contradicting the claim that the
assembler never emits a `Complete` body exceeding `MAX_BODY_SIZE`. -/
theorem C1_oversized_exact_body_completes :
    start_handling cfgSmallBody inputExactOversized =
      Except.ok (⟨true, "POST".toList, "/".toList, "HTTP/1.1".toList,
        [("CONTENT-LENGTH".toList, "5".toList)], "hello".toList⟩, none) ∧
    (start_handling cfgSmallBody inputExactOversized).toOption.map
        (fun p => decide (p.1.completed = true ∧ p.1.body.length > cfgSmallBody.MAX_BODY_SIZE))
      = some true := by
  decide

/-- C3: counter-evidence. Continuing a chunked body with a chunk whose
declared size (5) exceeds `MAX_BODY_SIZE` (4) yields a fatal result whose
code is the string `CONTENT_TOO_LARGE`, which differs from
`BAD_CONTENT_TOO_LARGE` and is not among the six enumerated protocol-error
codes. -/
theorem C3_continuation_emits_unprefixed_code :
    (continue_chunked_handling cfgSmallBody dataChunkedPending "5\r\nhello\r\n0\r\n\r\n".toList).1 =
      ⟨true, CONTENT_TOO_LARGE, "/".toList, "HTTP/1.1".toList,
        [("TRANSFER-ENCODING".toList, "chunked".toList)], []⟩ ∧
    CONTENT_TOO_LARGE ≠ BAD_CONTENT_TOO_LARGE ∧
    CONTENT_TOO_LARGE ∉ [BAD_METHOD_OR_URI_OR_VERSION, BAD_HEADERS_TOO_LARGE, BAD_REPEATED,
      BAD_CONTENT_TOO_LARGE, BAD_CHUNK_ENCODING, BAD_TRAILER_HEADERS] := by
  decide

/-- C6: the chunked request `5\r\nhello\r\n6\r\n world\r\n0\r\n\r\n` after
chunked-selecting headers completes with body `hello world`; a second run
shows a `;` chunk extension being stripped and an uppercase hexadecimal
size `A` accepted (10 data bytes), the chunk CRLFs excluded from the body,
and the zero-sized chunk terminating it. -/
theorem C6_chunked_example_complete :
    start_handling defaultConfig inputChunkedExample =
      Except.ok (⟨true, "POST".toList, "/".toList, "HTTP/1.1".toList,
        [("TRANSFER-ENCODING".toList, "chunked".toList)], "hello world".toList⟩, none) ∧
    start_handling defaultConfig inputChunkedExt =
      Except.ok (⟨true, "POST".toList, "/".toList, "HTTP/1.1".toList,
        [("TRANSFER-ENCODING".toList, "chunked".toList)], "0123456789".toList⟩, none) := by
  decide

/-- C7: counterexample. In the simple-GET scenario the serialized response
(with a concrete RFC 1123 date) does not contain the header line
`Content-Type: TEXT/PLAIN\r\n` claimed by the specification:
`to_string` uppercases the stored header name and leaves the value as-is. -/
theorem C7_claimed_header_line_absent :
    hasSub (to_string scenarioSimpleGet dateRFC1123) "Content-Type: TEXT/PLAIN\r\n".toList
      = false := by
  decide

/-- C7 (amended): the serialized simple-GET response is exactly
`HTTP/1.1 200 OK\r\nDate: <date>\r\n` followed by the header line
`CONTENT-TYPE: text/plain\r\n`, the blank line, and the body `hi` — so it
begins with the claimed status and Date lines, contains the uppercased-name
header line, and the header block is followed by `\r\nhi`. -/
theorem C7_amended_serialization (d : Str) :
    to_string scenarioSimpleGet d =
      "HTTP/1.1 200 OK\r\nDate: ".toList ++ d ++
        "\r\nCONTENT-TYPE: text/plain\r\n\r\nhi".toList := by
  rfl

/-- C9: `end()` without a prior `send()` never writes to the wire (for any
connection state, the wire is untouched); on a fresh connection it closes
the descriptor exactly once, and a second `end()` changes nothing — no
additional close, no bytes — because `socket::disconnect` ignores an
already-invalidated descriptor. -/
theorem C9_end_without_send_then_idempotent :
    (∀ s : ConnState, (response_end s).wire = s.wire) ∧
    response_end freshConn = ⟨false, 1, []⟩ ∧
    response_end (response_end freshConn) = response_end freshConn := by
  refine ⟨fun s => ?_, by decide, by decide⟩
  unfold response_end close_connection remove_client socket_disconnect
  split <;> rfl

/-- C10: a request that passes request-line and header parsing but carries
`Content-Length: abc` makes `start_handling` propagate the exception thrown
by `std::stoull` (modelled as `Except.error ()`) instead of returning any
`NeedMore`, `Complete`, or `Fatal` result. -/
theorem C10_nonnumeric_content_length_throws :
    start_handling defaultConfig ("GET / HTTP/1.1\r\nContent-Length: abc\r\n\r\n".toList)
      = Except.error () := by
  decide

end HttpModel
